import Mathlib

/-!
SimpleLang-Compiler: shallow embedding and verification

A shallow embedding of `src/main.cpp` (the whole repository): the lexer
`tokenize`, the recursive-descent parser (`consume`, `parseTerm`, ...,
`parseProgram`), the AST printer `printAST`, and the code generator
`generateAssembly`, followed by theorems settling the specification
claims.

Modelling conventions:
* C++ strings are modelled as `String` / `List Char`; characters are
  classified by their code point, matching the C locale classification
  (`isspace`, `isalpha`, `isdigit`) on the ASCII range used by the
  grammar.
* The parser's global cursor `pos` is threaded explicitly; each parsing
  routine takes the token list and a position and returns
  `Except ParseErr (result × newPos)`.
* `std::vector::operator[]` has no bounds check: an out-of-bounds read is
  undefined behaviour in C++.  The embedding makes every token read
  explicit via `peekTok`, which returns the distinguished error
  `ParseErr.oobRead i` when the C++ code would read `tokens[i]` with
  `i ≥ tokens.size()`.  This error is *not* a `runtime_error` and is not
  caught by `main`'s `try/catch`.
* The mutually recursive statement parsers take a fuel argument;
  `ParseErr.outOfFuel` is an artefact of the model, never reached with
  enough fuel for a given input.
* `cout` output is modelled as the list of emitted lines, in order,
  accumulated in `GenState.out`; the `unordered_map` symbol table is
  modelled as an association list where `symInsert` prepends (lookup
  returns the most recent binding, matching `operator[]` assignment
  semantics); the function-local `static int labelCounter` is a field of
  `GenState`.
-/

namespace SimpleLang

/-! Character classification (C locale, as used by `main.cpp`). -/

/-- C `isspace` on the ASCII range: space, \t, \n, \v, \f, \r. -/
def isspaceC (c : Char) : Bool :=
  c.toNat = 32 ∨ c.toNat = 9 ∨ c.toNat = 10 ∨ c.toNat = 11 ∨ c.toNat = 12 ∨ c.toNat = 13

/-- C `isalpha`: A-Z or a-z. -/
def isalphaC (c : Char) : Bool :=
  (65 ≤ c.toNat ∧ c.toNat ≤ 90) ∨ (97 ≤ c.toNat ∧ c.toNat ≤ 122)

/-- C `isdigit`: 0-9. -/
def isdigitC (c : Char) : Bool :=
  48 ≤ c.toNat ∧ c.toNat ≤ 57

/-! Tokens (`enum TokenType`, `struct Token`). -/

inductive TokenType where
  | assign_op | plus_op | minus_op | semicolon
  | lbrace | rbrace | lparen | rparen
  | eq_op | unknown | int_keyword | if_keyword
  | identifier | number
deriving DecidableEq, Repr

structure Token where
  type : TokenType
  value : String
deriving DecidableEq, Repr

/-! Lexer (`tokenize`).

`main.cpp` iterates a cursor over the source string with inner loops
collecting maximal alphabetic / digit runs; reading one past the end of a
`const std::string` yields `'\0'` (defined behaviour), which terminates
every inner loop and fails the `==` lookahead, so the C++ loop never
leaves the string.  The embedding recurses on the remaining character
list, taking the maximal runs with `takeWhile`/`dropWhile`. -/

def tokenizeFuel : Nat → List Char → List Token
  | 0, _ => []
  | _, [] => []
  | fuel + 1, c :: rest =>
    if isspaceC c then tokenizeFuel fuel rest
    else if c = '=' then
      if rest.head? = some '=' then Token.mk .eq_op "==" :: tokenizeFuel fuel rest.tail
      else Token.mk .assign_op "=" :: tokenizeFuel fuel rest
    else if c = '+' then Token.mk .plus_op "+" :: tokenizeFuel fuel rest
    else if c = '-' then Token.mk .minus_op "-" :: tokenizeFuel fuel rest
    else if c = ';' then Token.mk .semicolon ";" :: tokenizeFuel fuel rest
    else if c = '{' then Token.mk .lbrace "\x7b" :: tokenizeFuel fuel rest
    else if c = '}' then Token.mk .rbrace "\x7d" :: tokenizeFuel fuel rest
    else if c = '(' then Token.mk .lparen "(" :: tokenizeFuel fuel rest
    else if c = ')' then Token.mk .rparen ")" :: tokenizeFuel fuel rest
    else if isalphaC c then
      let run : List Char := c :: rest.takeWhile isalphaC
      let tok :=
        if String.mk run = "int" then Token.mk .int_keyword (String.mk run)
        else if String.mk run = "if" then Token.mk .if_keyword (String.mk run)
        else Token.mk .identifier (String.mk run)
      tok :: tokenizeFuel fuel (rest.dropWhile isalphaC)
    else if isdigitC c then
      Token.mk .number (String.mk (c :: rest.takeWhile isdigitC)) ::
        tokenizeFuel fuel (rest.dropWhile isdigitC)
    else
      Token.mk .unknown (String.mk [c]) :: tokenizeFuel fuel rest

/-- the C++ loop advances its cursor by at least one character per
emitted-token-or-skip, so `cs.length` steps always suffice and the
fuel-0 branch is never taken: `tokenizeFuel` with fuel `cs.length`
performs exactly the C++ iteration (the fuel is a modelling device for
structural recursion; every recursive call drops at least one character
per unit of fuel spent). -/
def tokenize (cs : List Char) : List Token := tokenizeFuel cs.length cs

/-! AST (`struct ASTNode`). -/

inductive ASTNode where
  | mk (value : String) (children : List ASTNode)
deriving Repr

def ASTNode.value : ASTNode → String
  | .mk v _ => v

def ASTNode.children : ASTNode → List ASTNode
  | .mk _ cs => cs

/-- the expression `node.children[i]` as written in `main.cpp`; on a well-shaped tree the
index is always in bounds (an out-of-bounds vector access would be
undefined behaviour in C++, and the parser never produces such shapes). -/
def childAt (n : ASTNode) (i : Nat) : ASTNode :=
  n.children.getD i (ASTNode.mk "" [])

/-! Parser.

`main.cpp` keeps the cursor in a global `size_t pos` and the token list in
a global `vector<Token> tokens`; the embedding passes both explicitly.
Every raw `tokens[pos]` read goes through `peekTok`. -/

inductive ParseErr where
  /-- models `throw runtime_error("Unexpected token")` in `consume`. -/
  | unexpectedToken
  /-- models `throw runtime_error("Expected term")` in `parseTerm`. -/
  | expectedTerm
  /-- the C++ code evaluates `tokens[i]` with `i ≥ tokens.size()`:
  undefined behaviour, not a catchable error. -/
  | oobRead (i : Nat)
  /-- artefact of the fuel-based model of the mutual recursion. -/
  | outOfFuel
deriving DecidableEq, Repr

/-- A parse result: the parsed value together with the new cursor. -/
abbrev PResult (α : Type) := Except ParseErr (α × Nat)

/-- The read `tokens[pos]`. -/
def peekTok (ts : List Token) (pos : Nat) : Except ParseErr Token :=
  if h : pos < ts.length then .ok (ts.get ⟨pos, h⟩) else .error (.oobRead pos)

/-- models `consume(type)`: `if (tokens[pos].type == type) return tokens[pos++];
throw runtime_error("Unexpected token");` -/
def consume (ts : List Token) (ty : TokenType) (pos : Nat) : PResult Token :=
  match peekTok ts pos with
  | .error e => .error e
  | .ok t => if t.type = ty then .ok (t, pos + 1) else .error .unexpectedToken

/-- models `parseIdentifier`. -/
def parseIdentifier (ts : List Token) (pos : Nat) : PResult ASTNode :=
  match consume ts .identifier pos with
  | .error e => .error e
  | .ok (t, p) => .ok (ASTNode.mk "Identifier" [ASTNode.mk t.value []], p)

/-- models `parseTerm`: checks `tokens[pos].type` and then consumes. -/
def parseTerm (ts : List Token) (pos : Nat) : PResult ASTNode :=
  match peekTok ts pos with
  | .error e => .error e
  | .ok t =>
    if t.type = .number then
      match consume ts .number pos with
      | .error e => .error e
      | .ok (t', p) => .ok (ASTNode.mk "Number" [ASTNode.mk t'.value []], p)
    else if t.type = .identifier then parseIdentifier ts pos
    else .error .expectedTerm

/-- models `parseExpression`: one term, then an optional `+`/`-` and second term.
The `tokens[pos].type` lookahead after the first term is a raw read. -/
def parseExpression (ts : List Token) (pos : Nat) : PResult ASTNode :=
  match parseTerm ts pos with
  | .error e => .error e
  | .ok (left, p1) =>
    match peekTok ts p1 with
    | .error e => .error e
    | .ok t =>
      if t.type = .plus_op ∨ t.type = .minus_op then
        match consume ts t.type p1 with
        | .error e => .error e
        | .ok (op, p2) =>
          match parseTerm ts p2 with
          | .error e => .error e
          | .ok (right, p3) => .ok (ASTNode.mk op.value [left, right], p3)
      else .ok (left, p1)

/-- models `parseCondition`. -/
def parseCondition (ts : List Token) (pos : Nat) : PResult ASTNode :=
  match parseTerm ts pos with
  | .error e => .error e
  | .ok (left, p1) =>
    match consume ts .eq_op p1 with
    | .error e => .error e
    | .ok (_, p2) =>
      match parseTerm ts p2 with
      | .error e => .error e
      | .ok (right, p3) => .ok (ASTNode.mk "==" [left, right], p3)

/-- models `parseDeclaration`. -/
def parseDeclaration (ts : List Token) (pos : Nat) : PResult ASTNode :=
  match consume ts .int_keyword pos with
  | .error e => .error e
  | .ok (_, p1) =>
    match consume ts .identifier p1 with
    | .error e => .error e
    | .ok (ident, p2) =>
      match consume ts .semicolon p2 with
      | .error e => .error e
      | .ok (_, p3) =>
        .ok (ASTNode.mk "Declaration"
              [ASTNode.mk "Identifier" [ASTNode.mk ident.value []]], p3)

/-- models `parseAssignment`. -/
def parseAssignment (ts : List Token) (pos : Nat) : PResult ASTNode :=
  match consume ts .identifier pos with
  | .error e => .error e
  | .ok (ident, p1) =>
    match consume ts .assign_op p1 with
    | .error e => .error e
    | .ok (_, p2) =>
      match parseExpression ts p2 with
      | .error e => .error e
      | .ok (expr, p3) =>
        match consume ts .semicolon p3 with
        | .error e => .error e
        | .ok (_, p4) =>
          .ok (ASTNode.mk "Assignment"
                [ASTNode.mk "Identifier" [ASTNode.mk ident.value []], expr], p4)

mutual

/-- models `parseStatement`: dispatch on `tokens[pos].type`. -/
def parseStatement (ts : List Token) (fuel : Nat) (pos : Nat) : PResult ASTNode :=
  match fuel with
  | 0 => .error .outOfFuel
  | fuel + 1 =>
    match peekTok ts pos with
    | .error e => .error e
    | .ok t =>
      if t.type = .int_keyword then parseDeclaration ts pos
      else if t.type = .if_keyword then parseIfStatement ts fuel pos
      else parseAssignment ts pos

/-- models `parseIfStatement`. -/
def parseIfStatement (ts : List Token) (fuel : Nat) (pos : Nat) : PResult ASTNode :=
  match fuel with
  | 0 => .error .outOfFuel
  | fuel + 1 =>
  match consume ts .if_keyword pos with
  | .error e => .error e
  | .ok (_, p1) =>
    match consume ts .lparen p1 with
    | .error e => .error e
    | .ok (_, p2) =>
      match parseCondition ts p2 with
      | .error e => .error e
      | .ok (condition, p3) =>
        match consume ts .rparen p3 with
        | .error e => .error e
        | .ok (_, p4) =>
          match consume ts .lbrace p4 with
          | .error e => .error e
          | .ok (_, p5) =>
            match parseIfBody ts fuel p5 with
            | .error e => .error e
            | .ok (body, p6) =>
              match consume ts .rbrace p6 with
              | .error e => .error e
              | .ok (_, p7) =>
                .ok (ASTNode.mk "If" [condition, ASTNode.mk "Body" body], p7)

/-- the `while (tokens[pos].type != RBRACE) body.push_back(parseStatement());`
loop inside `parseIfStatement`. -/
def parseIfBody (ts : List Token) (fuel : Nat) (pos : Nat) :
    Except ParseErr (List ASTNode × Nat) :=
  match fuel with
  | 0 => .error .outOfFuel
  | fuel + 1 =>
    match peekTok ts pos with
    | .error e => .error e
    | .ok t =>
      if t.type = .rbrace then .ok ([], pos)
      else
        match parseStatement ts fuel pos with
        | .error e => .error e
        | .ok (stmt, p1) =>
          match parseIfBody ts fuel p1 with
          | .error e => .error e
          | .ok (rest, p2) => .ok (stmt :: rest, p2)

end

/-- the `while (pos < tokens.size()) root.children.push_back(parseStatement());`
loop of `parseProgram`. -/
def parseProgramLoop (ts : List Token) (fuel : Nat) (pos : Nat) :
    Except ParseErr (List ASTNode × Nat) :=
  match fuel with
  | 0 => .error .outOfFuel
  | fuel + 1 =>
    if pos < ts.length then
      match parseStatement ts fuel pos with
      | .error e => .error e
      | .ok (stmt, p1) =>
        match parseProgramLoop ts fuel p1 with
        | .error e => .error e
        | .ok (rest, p2) => .ok (stmt :: rest, p2)
    else .ok ([], pos)

/-- models `parseProgram`: the root `"Program"` node. -/
def parseProgram (ts : List Token) (fuel : Nat) : Except ParseErr ASTNode :=
  match parseProgramLoop ts fuel 0 with
  | .error e => .error e
  | .ok (stmts, _) => .ok (ASTNode.mk "Program" stmts)

/-! Printer (`printAST`). -/

/-- the indentation: `level` copies of the two-space indent. -/
def indentOf : Nat → String
  | 0 => ""
  | n + 1 => "  " ++ indentOf n

mutual

/-- models `printAST(node, level)`: one line per node (indent then tag), then the
children at `level + 1`, in order.  Output modelled as the list of printed
lines. -/
def printAST : ASTNode → Nat → List String
  | .mk v cs, level => (indentOf level ++ v) :: printASTList cs (level + 1)
termination_by structural node => node

def printASTList : List ASTNode → Nat → List String
  | [], _ => []
  | n :: rest, level => printAST n level ++ printASTList rest level
termination_by structural ns => ns

end

/-! Code generator (`generateAssembly`).

State: the emitted lines (in order), the symbol table (the C++
`unordered_map<string,int>&` passed by reference), and the function-local
`static int labelCounter`. -/

structure GenState where
  out : List String
  symbolTable : List (String × Int)
  labelCounter : Nat
deriving Repr

/-- one `cout << line << endl`. -/
def emit (st : GenState) (line : String) : GenState :=
  { st with out := st.out ++ [line] }

/-- models `symbolTable[varName] = 0`: `unordered_map::operator[]` assignment;
lookup of the association list returns the most recent binding, so
prepending models insert-or-overwrite observationally. -/
def symInsert (tbl : List (String × Int)) (k : String) (v : Int) :
    List (String × Int) :=
  (k, v) :: tbl

mutual

/-- models `generateAssembly(node, symbolTable)`: dispatch on `node.value`.
The `"If"` branch destructures the two children it reads
(`node.children[0]` and `node.children[1].children`); on any other
shape of an `"If"` node the C++ vector access would be undefined
behaviour (never produced by the parser), modelled as a no-op. -/
def generateAssembly (node : ASTNode) (st : GenState) : GenState :=
  match node with
  | .mk "Program" cs => generateAssemblyList cs st
  | .mk "Declaration" cs =>
    let varName := (childAt (cs.getD 0 (ASTNode.mk "" [])) 0).value
    { st with symbolTable := symInsert st.symbolTable varName 0 }
  | .mk "Assignment" cs =>
    let varName := (childAt (cs.getD 0 (ASTNode.mk "" [])) 0).value
    let expr := cs.getD 1 (ASTNode.mk "" [])
    let st1 :=
      if expr.value = "Number" then
        emit st ("  MVI A, " ++ (childAt expr 0).value)
      else if expr.value = "+" then
        let left := childAt expr 0
        let right := childAt expr 1
        let stl :=
          if left.value = "Identifier" then
            emit st ("  MOV A, " ++ (childAt left 0).value)
          else
            emit st ("  MVI A, " ++ (childAt left 0).value)
        if right.value = "Identifier" then
          emit stl ("  ADD " ++ (childAt right 0).value)
        else
          emit stl ("  ADI " ++ (childAt right 0).value)
      else st
    emit st1 ("  STA " ++ varName)
  | .mk "If" (condition :: .mk _bodyTag bodyChildren :: _) =>
    let label := st.labelCounter
    let st1 := generateAssembly condition
                 { st with labelCounter := st.labelCounter + 1 }
    let st2 := emit st1 ("  JNZ LABEL" ++ toString label)
    let st3 := generateAssemblyList bodyChildren st2
    emit st3 ("LABEL" ++ toString label ++ ":")
  | .mk "If" _ => st
  | .mk "==" cs =>
    let leftVar := (childAt (cs.getD 0 (ASTNode.mk "" [])) 0).value
    let rightVal := (childAt (cs.getD 1 (ASTNode.mk "" [])) 0).value
    emit (emit st ("  MOV A, " ++ leftVar)) ("  CPI " ++ rightVal)
  | .mk _ _ => st
termination_by structural node

/-- the `for (const auto &child : ...) generateAssembly(child, symbolTable);`
loops over `"Program"` children and `"If"` body statements. -/
def generateAssemblyList (ns : List ASTNode) (st : GenState) : GenState :=
  match ns with
  | [] => st
  | n :: rest => generateAssemblyList rest (generateAssembly n st)
termination_by structural ns

end

/-! The `main` function.

`main` reads the file (line by line, concatenated), tokenizes, then inside
`try`: parses, prints the AST, prints the `"\nAssembly Code:\n"` header and
generates assembly with a fresh empty symbol table; `catch` prints
`"Error: " ++ e.what()` to `cerr` and no further stdout is produced
(the throw happens inside `parseProgram`, before any printing). -/

/-- the `what()` message of the two `runtime_error`s `main` can catch. -/
def errMessage : ParseErr → String
  | .unexpectedToken => "Unexpected token"
  | .expectedTerm => "Expected term"
  | .oobRead _ => ""
  | .outOfFuel => ""

/-- One compiler run on a source text: `some (stdoutLines, stderrLines)`,
or `none` when the C++ behaviour is undefined (out-of-bounds vector read)
or the model ran out of fuel. -/
def mainRun (source : List Char) (fuel : Nat) :
    Option (List String × List String) :=
  let ts := tokenize source
  match parseProgram ts fuel with
  | .error (.oobRead _) => none
  | .error .outOfFuel => none
  | .error e => some ([], ["Error: " ++ errMessage e])
  | .ok root =>
    let gen := generateAssembly root { out := [], symbolTable := [], labelCounter := 0 }
    some (printAST root 0 ++ ["", "Assembly Code:"] ++ gen.out, [])

/-- Just the generated instruction listing of a run (empty on failure):
the lines after the `"Assembly Code:"` header. -/
def asmOf (source : List Char) (fuel : Nat) : List String :=
  match parseProgram (tokenize source) fuel with
  | .error _ => []
  | .ok root =>
    (generateAssembly root { out := [], symbolTable := [], labelCounter := 0 }).out

/-! Observation helpers (specification-side, no counterpart in the C++). -/

/-- Concatenation of the literal texts of a token sequence, in order. -/
def tokensText : List Token → List Char
  | [] => []
  | t :: rest => t.value.data ++ tokensText rest

mutual

/-- Variable names recorded by `"Declaration"` nodes, in the order the
`generateAssembly` traversal visits them (same dispatch structure). -/
def declaredVars : ASTNode → List String
  | .mk "Program" cs => declaredVarsList cs
  | .mk "Declaration" cs => [(childAt (cs.getD 0 (ASTNode.mk "" [])) 0).value]
  | .mk "Assignment" _ => []
  | .mk "If" (condition :: .mk _bodyTag bodyChildren :: _) =>
    declaredVars condition ++ declaredVarsList bodyChildren
  | .mk "If" _ => []
  | .mk "==" _ => []
  | .mk _ _ => []
termination_by structural node => node

def declaredVarsList : List ASTNode → List String
  | [] => []
  | n :: rest => declaredVars n ++ declaredVarsList rest
termination_by structural ns => ns

end

/-- How one `generateAssembly` call may change the state: output lines are
only appended, symbol-table entries are only prepended and always with
value `0`, and the label counter never decreases. -/
def Extends (st st' : GenState) : Prop :=
  (∃ o, st'.out = st.out ++ o) ∧
  (∃ d, st'.symbolTable = d ++ st.symbolTable ∧ ∀ p ∈ d, p.2 = 0) ∧
  st.labelCounter ≤ st'.labelCounter

/-- Cursor discipline of a parse result: a success leaves the cursor at or
before the end of the token list, and an out-of-bounds read can only
happen at the index one past the last token. -/
def CursorOk (ts : List Token) {α : Type} (r : Except ParseErr (α × Nat)) : Prop :=
  (∀ a p', r = .ok (a, p') → p' ≤ ts.length) ∧
  (∀ i, r = .error (.oobRead i) → i = ts.length)

/-! Helper lemmas. -/

theorem Extends.refl (st : GenState) : Extends st st :=
  ⟨⟨[], by simp⟩, ⟨[], by simp⟩, Nat.le_refl _⟩

theorem Extends.trans {s1 s2 s3 : GenState} (h1 : Extends s1 s2)
    (h2 : Extends s2 s3) : Extends s1 s3 := by
  obtain ⟨⟨o1, ho1⟩, ⟨d1, hd1, hz1⟩, hl1⟩ := h1
  obtain ⟨⟨o2, ho2⟩, ⟨d2, hd2, hz2⟩, hl2⟩ := h2
  refine ⟨⟨o1 ++ o2, by simp [ho2, ho1]⟩, ⟨d2 ++ d1, by simp [hd2, hd1], ?_⟩, Nat.le_trans hl1 hl2⟩
  intro p hp
  rcases List.mem_append.1 hp with h | h
  · exact hz2 p h
  · exact hz1 p h

theorem Extends.emit (st : GenState) (line : String) :
    Extends st (SimpleLang.emit st line) :=
  ⟨⟨[line], rfl⟩, ⟨[], by simp [SimpleLang.emit]⟩, Nat.le_refl _⟩

theorem Extends.insert0 (st : GenState) (k : String) :
    Extends st { st with symbolTable := symInsert st.symbolTable k 0 } :=
  ⟨⟨[], by simp⟩, ⟨[(k, 0)], rfl, by simp⟩, Nat.le_refl _⟩

theorem Extends.bumpLabel (st : GenState) :
    Extends st { st with labelCounter := st.labelCounter + 1 } :=
  ⟨⟨[], by simp⟩, ⟨[], by simp⟩, Nat.le_succ _⟩

theorem lookup_append (k : String) (l1 l2 : List (String × Int)) :
    List.lookup k (l1 ++ l2) = (List.lookup k l1).or (List.lookup k l2) := by
  induction l1 with
  | nil => simp
  | cons p rest ih =>
    obtain ⟨a, b⟩ := p
    by_cases h : k = a
    · simp [List.lookup_cons, h]
    · simp [List.lookup_cons, beq_false_of_ne h, ih]

/-- The central structural fact about the code generator: both the node
and the list traversals only extend the state. -/
theorem generateAssembly_extends :
    (∀ (node : ASTNode) (st : GenState), Extends st (generateAssembly node st)) ∧
    (∀ (ns : List ASTNode) (st : GenState), Extends st (generateAssemblyList ns st)) := by
  apply generateAssembly.mutual_induct
    (motive_1 := fun node st => Extends st (generateAssembly node st))
    (motive_2 := fun ns st => Extends st (generateAssemblyList ns st))
  · intro st cs h
    simpa [generateAssembly] using h
  · intro st cs
    simp only [generateAssembly]
    exact Extends.insert0 st _
  · intro st cs
    simp only [generateAssembly]
    refine Extends.trans ?_ (Extends.emit _ _)
    split
    · exact Extends.emit st _
    · split
      · split <;> refine Extends.trans ?_ (Extends.emit _ _) <;> split <;>
          exact Extends.emit st _
      · exact Extends.refl st
  · intro st condition _bodyTag bodyChildren tail label st1 st2 h1 h2
    simp only [generateAssembly]
    refine Extends.trans (Extends.bumpLabel st) (Extends.trans h1 ?_)
    refine Extends.trans (Extends.emit _ _) (Extends.trans h2 (Extends.emit _ _))
  · intro st children hno
    rw [generateAssembly.eq_def]
    split
    · rename_i heq
      exact absurd heq (by simp)
    · rename_i heq
      exact absurd heq (by simp)
    · rename_i heq
      exact absurd heq (by simp)
    · rename_i heq
      injection heq with hv hc
      exact absurd hc (by intro hcc; exact hno _ _ _ _ hcc)
    · exact Extends.refl st
    · rename_i heq
      exact absurd heq (by simp)
    · exact Extends.refl st
  · intro st cs
    simp only [generateAssembly]
    exact Extends.trans (Extends.emit st _) (Extends.emit _ _)
  · intro st value children h1 h2 h3 h4 h5 h6
    rw [generateAssembly.eq_def]
    split
    · rename_i heq
      injection heq with hv hc
      exact absurd hv h1
    · rename_i heq
      injection heq with hv hc
      exact absurd hv h2
    · rename_i heq
      injection heq with hv hc
      exact absurd hv h3
    · rename_i heq
      injection heq with hv hc
      exact absurd hc (by intro hcc; exact h4 _ _ _ _ hv hcc)
    · rename_i heq
      injection heq with hv hc
      exact absurd hv h5
    · rename_i heq
      injection heq with hv hc
      exact absurd hv h6
    · exact Extends.refl st
  · intro st
    simp only [generateAssemblyList]
    exact Extends.refl st
  · intro st n rest h1 h2
    simp only [generateAssemblyList]
    exact Extends.trans h1 h2

theorem lookup_all_zero {d : List (String × Int)} (hz : ∀ p ∈ d, p.2 = 0)
    {k : String} {v : Int} (h : List.lookup k d = some v) : v = 0 := by
  induction d with
  | nil => simp at h
  | cons p rest ih =>
    obtain ⟨a, b⟩ := p
    by_cases hk : k = a
    · rw [List.lookup_cons] at h
      simp [hk] at h
      have := hz (a, b) (by simp)
      simp at this
      omega
    · rw [List.lookup_cons] at h
      simp [beq_false_of_ne hk] at h
      exact ih (fun p hp => hz p (List.mem_cons_of_mem _ hp)) h

theorem emit_symbolTable (st : GenState) (line : String) :
    (emit st line).symbolTable = st.symbolTable := rfl

theorem emit_labelCounter (st : GenState) (line : String) :
    (emit st line).labelCounter = st.labelCounter := rfl

theorem generateAssembly_label_mono (node : ASTNode) (st : GenState) :
    st.labelCounter ≤ (generateAssembly node st).labelCounter :=
  (generateAssembly_extends.1 node st).2.2

theorem generateAssembly_lookup_mono (node : ASTNode) (st : GenState) (k : String)
    (h : (List.lookup k st.symbolTable).isSome) :
    (List.lookup k (generateAssembly node st).symbolTable).isSome := by
  obtain ⟨d, hd, hz⟩ := (generateAssembly_extends.1 node st).2.1
  rw [hd, lookup_append]
  cases hl : List.lookup k d with
  | none => simpa [hl] using h
  | some v => simp [hl]

theorem generateAssembly_lookup_zero (node : ASTNode) (st : GenState) (k : String)
    (h : List.lookup k st.symbolTable = some 0) :
    List.lookup k (generateAssembly node st).symbolTable = some 0 := by
  obtain ⟨d, hd, hz⟩ := (generateAssembly_extends.1 node st).2.1
  rw [hd, lookup_append]
  cases hl : List.lookup k d with
  | none => simpa [hl] using h
  | some v => simp [hl, lookup_all_zero hz hl]

theorem generateAssemblyList_lookup_zero (ns : List ASTNode) (st : GenState) (k : String)
    (h : List.lookup k st.symbolTable = some 0) :
    List.lookup k (generateAssemblyList ns st).symbolTable = some 0 := by
  obtain ⟨d, hd, hz⟩ := (generateAssembly_extends.2 ns st).2.1
  rw [hd, lookup_append]
  cases hl : List.lookup k d with
  | none => simpa [hl] using h
  | some v => simp [hl, lookup_all_zero hz hl]

theorem generateAssembly_all_zero (node : ASTNode) (st : GenState)
    (hst : ∀ k v, List.lookup k st.symbolTable = some v → v = 0)
    (k : String) (v : Int)
    (h : List.lookup k (generateAssembly node st).symbolTable = some v) : v = 0 := by
  obtain ⟨d, hd, hz⟩ := (generateAssembly_extends.1 node st).2.1
  rw [hd, lookup_append] at h
  cases hl : List.lookup k d with
  | none => rw [hl] at h; exact hst k v (by simpa using h)
  | some w =>
    rw [hl] at h
    simp at h
    rw [← h]
    exact lookup_all_zero hz hl

/-- Every variable name a `"Declaration"` node records during the
traversal ends up in the symbol table mapped to `0`. -/
theorem declaredVars_lookup :
    (∀ (node : ASTNode) (st : GenState), ∀ k ∈ declaredVars node,
      List.lookup k (generateAssembly node st).symbolTable = some 0) ∧
    (∀ (ns : List ASTNode) (st : GenState), ∀ k ∈ declaredVarsList ns,
      List.lookup k (generateAssemblyList ns st).symbolTable = some 0) := by
  apply generateAssembly.mutual_induct
    (motive_1 := fun node st => ∀ k ∈ declaredVars node,
      List.lookup k (generateAssembly node st).symbolTable = some 0)
    (motive_2 := fun ns st => ∀ k ∈ declaredVarsList ns,
      List.lookup k (generateAssemblyList ns st).symbolTable = some 0)
  · intro st cs h k hk
    simp only [declaredVars] at hk
    simpa [generateAssembly] using h k hk
  · intro st cs k hk
    simp only [declaredVars, List.mem_singleton] at hk
    subst hk
    simp [generateAssembly, symInsert, List.lookup_cons]
  · intro st cs k hk
    simp [declaredVars] at hk
  · intro st condition _bodyTag bodyChildren tail label st1 st2 h1 h2 k hk
    simp only [declaredVars, List.mem_append] at hk
    simp only [generateAssembly, emit_symbolTable]
    rcases hk with hk | hk
    · exact generateAssemblyList_lookup_zero _ _ _ (h1 k hk)
    · exact h2 k hk
  · intro st children hno k hk
    rw [declaredVars.eq_def] at hk
    split at hk
    · rename_i heq
      exact absurd heq (by simp)
    · rename_i heq
      exact absurd heq (by simp)
    · rename_i heq
      exact absurd heq (by simp)
    · rename_i heq
      injection heq with hv hc
      exact absurd hc (by intro hcc; exact hno _ _ _ _ hcc)
    · simp at hk
    · rename_i heq
      exact absurd heq (by simp)
    · simp at hk
  · intro st cs k hk
    simp [declaredVars] at hk
  · intro st value children h1 h2 h3 h4 h5 h6 k hk
    rw [declaredVars.eq_def] at hk
    split at hk
    · rename_i heq
      injection heq with hv _
      exact absurd hv h1
    · rename_i heq
      injection heq with hv _
      exact absurd hv h2
    · rename_i heq
      injection heq with hv _
      exact absurd hv h3
    · rename_i heq
      injection heq with hv hc
      exact absurd hc (by intro hcc; exact h4 _ _ _ _ hv hcc)
    · rename_i heq
      injection heq with hv _
      exact absurd hv h5
    · rename_i heq
      injection heq with hv _
      exact absurd hv h6
    · simp at hk
  · intro st k hk
    simp [declaredVarsList] at hk
  · intro st n rest h1 h2 k hk
    simp only [declaredVarsList, List.mem_append] at hk
    simp only [generateAssemblyList]
    rcases hk with hk | hk
    · exact generateAssemblyList_lookup_zero _ _ _ (h1 k hk)
    · exact h2 k hk

theorem cursorOk_pure {α : Type} {ts : List Token} {a : α} {p : Nat}
    (h : p ≤ ts.length) : CursorOk ts (Except.ok (a, p)) := by
  constructor
  · intro b q he
    injection he with h2
    injection h2 with _ h3
    omega
  · intro i he
    exact Except.noConfusion he

theorem cursorOk_error_ne {α : Type} {ts : List Token} {e : ParseErr}
    (h : ∀ i, e ≠ .oobRead i) :
    CursorOk ts (Except.error e : Except ParseErr (α × Nat)) := by
  constructor
  · intro b q he
    exact Except.noConfusion he
  · intro i he
    injection he with h2
    exact absurd h2 (h i)

theorem cursorOk_oob {α : Type} {ts : List Token} {i0 : Nat}
    (h : i0 = ts.length) :
    CursorOk ts (Except.error (.oobRead i0) : Except ParseErr (α × Nat)) := by
  constructor
  · intro b q he
    exact Except.noConfusion he
  · intro i he
    injection he with h2
    injection h2 with h3
    omega

theorem consume_cursorOk (ts : List Token) (ty : TokenType) (pos : Nat)
    (h : pos ≤ ts.length) : CursorOk ts (consume ts ty pos) := by
  by_cases hp : pos < ts.length
  · simp only [consume, peekTok, dif_pos hp]
    split
    · exact cursorOk_pure (by omega)
    · exact cursorOk_error_ne (fun i he => ParseErr.noConfusion he)
  · simp only [consume, peekTok, dif_neg hp]
    exact cursorOk_oob (by omega)

theorem parseIdentifier_cursorOk (ts : List Token) (pos : Nat)
    (h : pos ≤ ts.length) : CursorOk ts (parseIdentifier ts pos) := by
  have hc := consume_cursorOk ts .identifier pos h
  cases hres : consume ts .identifier pos with
  | error e =>
    simp only [parseIdentifier, hres]
    exact ⟨fun a p' he => Except.noConfusion he, fun i he => hc.2 i (by injection he with hinj; rw [hinj] at hres; exact hres)⟩
  | ok tp =>
    obtain ⟨t, p⟩ := tp
    simp only [parseIdentifier, hres]
    exact cursorOk_pure (hc.1 t p hres)

theorem parseTerm_cursorOk (ts : List Token) (pos : Nat)
    (h : pos ≤ ts.length) : CursorOk ts (parseTerm ts pos) := by
  by_cases hp : pos < ts.length
  · simp only [parseTerm, peekTok, dif_pos hp]
    split
    · have hc := consume_cursorOk ts .number pos h
      cases hres : consume ts .number pos with
      | error e =>
        simp only [hres]
        exact ⟨fun a p' he => Except.noConfusion he, fun i he => hc.2 i (by injection he with hinj; rw [hinj] at hres; exact hres)⟩
      | ok tp =>
        obtain ⟨t, p⟩ := tp
        simp only [hres]
        exact cursorOk_pure (hc.1 t p hres)
    · split
      · exact parseIdentifier_cursorOk ts pos h
      · exact cursorOk_error_ne (fun i he => ParseErr.noConfusion he)
  · simp only [parseTerm, peekTok, dif_neg hp]
    exact cursorOk_oob (by omega)

theorem parseExpression_cursorOk (ts : List Token) (pos : Nat)
    (h : pos ≤ ts.length) : CursorOk ts (parseExpression ts pos) := by
  have ht := parseTerm_cursorOk ts pos h
  cases hres : parseTerm ts pos with
  | error e =>
    simp only [parseExpression, hres]
    exact ⟨fun a p' he => Except.noConfusion he, fun i he => ht.2 i (by injection he with hinj; rw [hinj] at hres; exact hres)⟩
  | ok lp =>
    obtain ⟨left, p1⟩ := lp
    have hp1 : p1 ≤ ts.length := ht.1 left p1 hres
    by_cases hp : p1 < ts.length
    · simp only [parseExpression, hres, peekTok, dif_pos hp]
      split
      · have hc := consume_cursorOk ts (ts.get ⟨p1, hp⟩).type p1 hp1
        cases hres2 : consume ts (ts.get ⟨p1, hp⟩).type p1 with
        | error e =>
          simp only [hres2]
          exact ⟨fun a p' he => Except.noConfusion he, fun i he => hc.2 i (by injection he with hinj; rw [hinj] at hres2; exact hres2)⟩
        | ok opp =>
          obtain ⟨op, p2⟩ := opp
          have hp2 : p2 ≤ ts.length := hc.1 op p2 hres2
          have ht2 := parseTerm_cursorOk ts p2 hp2
          cases hres3 : parseTerm ts p2 with
          | error e =>
            simp only [hres2, hres3]
            exact ⟨fun a p' he => Except.noConfusion he, fun i he => ht2.2 i (by injection he with hinj; rw [hinj] at hres3; exact hres3)⟩
          | ok rp =>
            obtain ⟨right, p3⟩ := rp
            simp only [hres2, hres3]
            exact cursorOk_pure (ht2.1 right p3 hres3)
      · exact cursorOk_pure hp1
    · simp only [parseExpression, hres, peekTok, dif_neg hp]
      exact cursorOk_oob (by omega)

theorem parseCondition_cursorOk (ts : List Token) (pos : Nat)
    (h : pos ≤ ts.length) : CursorOk ts (parseCondition ts pos) := by
  have ht := parseTerm_cursorOk ts pos h
  cases hres : parseTerm ts pos with
  | error e =>
    simp only [parseCondition, hres]
    exact ⟨fun a p' he => Except.noConfusion he, fun i he => ht.2 i (by injection he with hinj; rw [hinj] at hres; exact hres)⟩
  | ok lp =>
    obtain ⟨left, p1⟩ := lp
    have hp1 : p1 ≤ ts.length := ht.1 left p1 hres
    have hc := consume_cursorOk ts .eq_op p1 hp1
    cases hres2 : consume ts .eq_op p1 with
    | error e =>
      simp only [parseCondition, hres, hres2]
      exact ⟨fun a p' he => Except.noConfusion he, fun i he => hc.2 i (by injection he with hinj; rw [hinj] at hres2; exact hres2)⟩
    | ok ep =>
      obtain ⟨eq, p2⟩ := ep
      have hp2 : p2 ≤ ts.length := hc.1 eq p2 hres2
      have ht2 := parseTerm_cursorOk ts p2 hp2
      cases hres3 : parseTerm ts p2 with
      | error e =>
        simp only [parseCondition, hres, hres2, hres3]
        exact ⟨fun a p' he => Except.noConfusion he, fun i he => ht2.2 i (by injection he with hinj; rw [hinj] at hres3; exact hres3)⟩
      | ok rp =>
        obtain ⟨right, p3⟩ := rp
        simp only [parseCondition, hres, hres2, hres3]
        exact cursorOk_pure (ht2.1 right p3 hres3)

theorem parseDeclaration_cursorOk (ts : List Token) (pos : Nat)
    (h : pos ≤ ts.length) : CursorOk ts (parseDeclaration ts pos) := by
  have h1 := consume_cursorOk ts .int_keyword pos h
  cases hres : consume ts .int_keyword pos with
  | error e =>
    simp only [parseDeclaration, hres]
    exact ⟨fun a p' he => Except.noConfusion he, fun i he => h1.2 i (by injection he with hinj; rw [hinj] at hres; exact hres)⟩
  | ok tp1 =>
    obtain ⟨t1, p1⟩ := tp1
    have hp1 : p1 ≤ ts.length := h1.1 t1 p1 hres
    have h2 := consume_cursorOk ts .identifier p1 hp1
    cases hres2 : consume ts .identifier p1 with
    | error e =>
      simp only [parseDeclaration, hres, hres2]
      exact ⟨fun a p' he => Except.noConfusion he, fun i he => h2.2 i (by injection he with hinj; rw [hinj] at hres2; exact hres2)⟩
    | ok tp2 =>
      obtain ⟨ident, p2⟩ := tp2
      have hp2 : p2 ≤ ts.length := h2.1 ident p2 hres2
      have h3 := consume_cursorOk ts .semicolon p2 hp2
      cases hres3 : consume ts .semicolon p2 with
      | error e =>
        simp only [parseDeclaration, hres, hres2, hres3]
        exact ⟨fun a p' he => Except.noConfusion he, fun i he => h3.2 i (by injection he with hinj; rw [hinj] at hres3; exact hres3)⟩
      | ok tp3 =>
        obtain ⟨t3, p3⟩ := tp3
        simp only [parseDeclaration, hres, hres2, hres3]
        exact cursorOk_pure (h3.1 t3 p3 hres3)

theorem parseAssignment_cursorOk (ts : List Token) (pos : Nat)
    (h : pos ≤ ts.length) : CursorOk ts (parseAssignment ts pos) := by
  have h1 := consume_cursorOk ts .identifier pos h
  cases hres : consume ts .identifier pos with
  | error e =>
    simp only [parseAssignment, hres]
    exact ⟨fun a p' he => Except.noConfusion he, fun i he => h1.2 i (by injection he with hinj; rw [hinj] at hres; exact hres)⟩
  | ok tp1 =>
    obtain ⟨ident, p1⟩ := tp1
    have hp1 : p1 ≤ ts.length := h1.1 ident p1 hres
    have h2 := consume_cursorOk ts .assign_op p1 hp1
    cases hres2 : consume ts .assign_op p1 with
    | error e =>
      simp only [parseAssignment, hres, hres2]
      exact ⟨fun a p' he => Except.noConfusion he, fun i he => h2.2 i (by injection he with hinj; rw [hinj] at hres2; exact hres2)⟩
    | ok tp2 =>
      obtain ⟨t2, p2⟩ := tp2
      have hp2 : p2 ≤ ts.length := h2.1 t2 p2 hres2
      have h3 := parseExpression_cursorOk ts p2 hp2
      cases hres3 : parseExpression ts p2 with
      | error e =>
        simp only [parseAssignment, hres, hres2, hres3]
        exact ⟨fun a p' he => Except.noConfusion he, fun i he => h3.2 i (by injection he with hinj; rw [hinj] at hres3; exact hres3)⟩
      | ok ep =>
        obtain ⟨expr, p3⟩ := ep
        have hp3 : p3 ≤ ts.length := h3.1 expr p3 hres3
        have h4 := consume_cursorOk ts .semicolon p3 hp3
        cases hres4 : consume ts .semicolon p3 with
        | error e =>
          simp only [parseAssignment, hres, hres2, hres3, hres4]
          exact ⟨fun a p' he => Except.noConfusion he, fun i he => h4.2 i (by injection he with hinj; rw [hinj] at hres4; exact hres4)⟩
        | ok tp4 =>
          obtain ⟨t4, p4⟩ := tp4
          simp only [parseAssignment, hres, hres2, hres3, hres4]
          exact cursorOk_pure (h4.1 t4 p4 hres4)
theorem parseIfStatement_cursorOk (ts : List Token) (fuel : Nat) (pos : Nat)
    (h : pos ≤ ts.length)
    (hB : ∀ p, p ≤ ts.length → CursorOk ts (parseIfBody ts fuel p)) :
    CursorOk ts (parseIfStatement ts (fuel + 1) pos) := by
  have h1 := consume_cursorOk ts .if_keyword pos h
  cases hres : consume ts .if_keyword pos with
  | error e =>
    simp only [parseIfStatement, hres]
    exact ⟨fun a p' he => Except.noConfusion he,
      fun i he => h1.2 i (by injection he with hinj; rw [hinj] at hres; exact hres)⟩
  | ok tp1 =>
    obtain ⟨t1, p1⟩ := tp1
    have hp1 : p1 ≤ ts.length := h1.1 t1 p1 hres
    have h2 := consume_cursorOk ts .lparen p1 hp1
    cases hres2 : consume ts .lparen p1 with
    | error e =>
      simp only [parseIfStatement, hres, hres2]
      exact ⟨fun a p' he => Except.noConfusion he,
        fun i he => h2.2 i (by injection he with hinj; rw [hinj] at hres2; exact hres2)⟩
    | ok tp2 =>
      obtain ⟨t2, p2⟩ := tp2
      have hp2 : p2 ≤ ts.length := h2.1 t2 p2 hres2
      have h3 := parseCondition_cursorOk ts p2 hp2
      cases hres3 : parseCondition ts p2 with
      | error e =>
        simp only [parseIfStatement, hres, hres2, hres3]
        exact ⟨fun a p' he => Except.noConfusion he,
          fun i he => h3.2 i (by injection he with hinj; rw [hinj] at hres3; exact hres3)⟩
      | ok cp =>
        obtain ⟨condition, p3⟩ := cp
        have hp3 : p3 ≤ ts.length := h3.1 condition p3 hres3
        have h4 := consume_cursorOk ts .rparen p3 hp3
        cases hres4 : consume ts .rparen p3 with
        | error e =>
          simp only [parseIfStatement, hres, hres2, hres3, hres4]
          exact ⟨fun a p' he => Except.noConfusion he,
            fun i he => h4.2 i (by injection he with hinj; rw [hinj] at hres4; exact hres4)⟩
        | ok tp4 =>
          obtain ⟨t4, p4⟩ := tp4
          have hp4 : p4 ≤ ts.length := h4.1 t4 p4 hres4
          have h5 := consume_cursorOk ts .lbrace p4 hp4
          cases hres5 : consume ts .lbrace p4 with
          | error e =>
            simp only [parseIfStatement, hres, hres2, hres3, hres4, hres5]
            exact ⟨fun a p' he => Except.noConfusion he,
              fun i he => h5.2 i (by injection he with hinj; rw [hinj] at hres5; exact hres5)⟩
          | ok tp5 =>
            obtain ⟨t5, p5⟩ := tp5
            have hp5 : p5 ≤ ts.length := h5.1 t5 p5 hres5
            have h6 := hB p5 hp5
            cases hres6 : parseIfBody ts fuel p5 with
            | error e =>
              simp only [parseIfStatement, hres, hres2, hres3, hres4, hres5, hres6]
              exact ⟨fun a p' he => Except.noConfusion he,
                fun i he => h6.2 i (by injection he with hinj; rw [hinj] at hres6; exact hres6)⟩
            | ok bp =>
              obtain ⟨body, p6⟩ := bp
              have hp6 : p6 ≤ ts.length := h6.1 body p6 hres6
              have h7 := consume_cursorOk ts .rbrace p6 hp6
              cases hres7 : consume ts .rbrace p6 with
              | error e =>
                simp only [parseIfStatement, hres, hres2, hres3, hres4, hres5, hres6, hres7]
                exact ⟨fun a p' he => Except.noConfusion he,
                  fun i he => h7.2 i (by injection he with hinj; rw [hinj] at hres7; exact hres7)⟩
              | ok tp7 =>
                obtain ⟨t7, p7⟩ := tp7
                simp only [parseIfStatement, hres, hres2, hres3, hres4, hres5, hres6, hres7]
                exact cursorOk_pure (h7.1 t7 p7 hres7)

theorem parseStatement_parseIfBody_cursorOk (ts : List Token) (fuel : Nat) :
    (∀ pos, pos ≤ ts.length → CursorOk ts (parseStatement ts fuel pos)) ∧
    (∀ pos, pos ≤ ts.length → CursorOk ts (parseIfBody ts fuel pos)) := by
  induction fuel using Nat.strong_induction_on with
  | _ fuel ih => ?_
  cases fuel with
  | zero =>
    constructor
    · intro pos _
      show CursorOk ts (Except.error ParseErr.outOfFuel)
      exact cursorOk_error_ne (fun i he => ParseErr.noConfusion he)
    · intro pos _
      show CursorOk ts (Except.error ParseErr.outOfFuel)
      exact cursorOk_error_ne (fun i he => ParseErr.noConfusion he)
  | succ fuel =>
    constructor
    · intro pos h
      by_cases hp : pos < ts.length
      · simp only [parseStatement, peekTok, dif_pos hp]
        split
        · exact parseDeclaration_cursorOk ts pos h
        · split
          · cases fuel with
            | zero =>
              simp only [parseIfStatement]
              exact cursorOk_error_ne (fun i he => ParseErr.noConfusion he)
            | succ g =>
              exact parseIfStatement_cursorOk ts g pos h (fun p hp2 => (ih g (by omega)).2 p hp2)
          · exact parseAssignment_cursorOk ts pos h
      · simp only [parseStatement, peekTok, dif_neg hp]
        exact cursorOk_oob (by omega)
    · intro pos h
      by_cases hp : pos < ts.length
      · simp only [parseIfBody, peekTok, dif_pos hp]
        split
        · exact cursorOk_pure h
        · have hS := (ih fuel (by omega)).1 pos h
          cases hres : parseStatement ts fuel pos with
          | error e =>
            simp only [hres]
            exact ⟨fun a p' he => Except.noConfusion he,
              fun i he => hS.2 i (by injection he with hinj; rw [hinj] at hres; exact hres)⟩
          | ok sp =>
            obtain ⟨stmt, p1⟩ := sp
            have hp1 : p1 ≤ ts.length := hS.1 stmt p1 hres
            have hR := (ih fuel (by omega)).2 p1 hp1
            cases hres2 : parseIfBody ts fuel p1 with
            | error e =>
              simp only [hres, hres2]
              exact ⟨fun a p' he => Except.noConfusion he,
                fun i he => hR.2 i (by injection he with hinj; rw [hinj] at hres2; exact hres2)⟩
            | ok rp =>
              obtain ⟨rest, p2⟩ := rp
              simp only [hres, hres2]
              exact cursorOk_pure (hR.1 rest p2 hres2)
      · simp only [parseIfBody, peekTok, dif_neg hp]
        exact cursorOk_oob (by omega)

theorem parseProgramLoop_cursorOk (ts : List Token) (fuel : Nat) :
    ∀ pos, pos ≤ ts.length → CursorOk ts (parseProgramLoop ts fuel pos) := by
  induction fuel with
  | zero =>
    intro pos _
    show CursorOk ts (Except.error ParseErr.outOfFuel)
    exact cursorOk_error_ne (fun i he => ParseErr.noConfusion he)
  | succ fuel ih =>
    intro pos h
    by_cases hp : pos < ts.length
    · simp only [parseProgramLoop, if_pos hp]
      have hS := (parseStatement_parseIfBody_cursorOk ts fuel).1 pos h
      cases hres : parseStatement ts fuel pos with
      | error e =>
        simp only [hres]
        exact ⟨fun a p' he => Except.noConfusion he,
          fun i he => hS.2 i (by injection he with hinj; rw [hinj] at hres; exact hres)⟩
      | ok sp =>
        obtain ⟨stmt, p1⟩ := sp
        have hp1 : p1 ≤ ts.length := hS.1 stmt p1 hres
        have hR := ih p1 hp1
        cases hres2 : parseProgramLoop ts fuel p1 with
        | error e =>
          simp only [hres, hres2]
          exact ⟨fun a p' he => Except.noConfusion he,
            fun i he => hR.2 i (by injection he with hinj; rw [hinj] at hres2; exact hres2)⟩
        | ok rp =>
          obtain ⟨rest, p2⟩ := rp
          simp only [hres, hres2]
          exact cursorOk_pure (hR.1 rest p2 hres2)
    · simp only [parseProgramLoop, if_neg hp]
      exact cursorOk_pure h

/-- Whenever `parseProgram` reports an out-of-bounds token read, the read
is at the index one past the last token. -/
theorem parseProgram_oob_at_end (ts : List Token) (fuel : Nat) (i : Nat)
    (h : parseProgram ts fuel = .error (.oobRead i)) : i = ts.length := by
  have hL := parseProgramLoop_cursorOk ts fuel 0 (Nat.zero_le _)
  unfold parseProgram at h
  cases hres : parseProgramLoop ts fuel 0 with
  | error e =>
    rw [hres] at h
    injection h with h2
    exact hL.2 i (by rw [h2] at hres; exact hres)
  | ok rp =>
    obtain ⟨stmts, p⟩ := rp
    rw [hres] at h
    exact Except.noConfusion h

/-! Lexer lemmas. -/

/-- One unfolding step of `tokenizeFuel` on a nonempty input (the
equation the C++ loop body satisfies); proved by definitional reduction
of the structural recursion. -/
theorem tokenizeFuel_cons (fuel : Nat) (c : Char) (rest : List Char) :
    tokenizeFuel (fuel + 1) (c :: rest) =
    (if isspaceC c then tokenizeFuel fuel rest
    else if c = '=' then
      if rest.head? = some '=' then Token.mk .eq_op "==" :: tokenizeFuel fuel rest.tail
      else Token.mk .assign_op "=" :: tokenizeFuel fuel rest
    else if c = '+' then Token.mk .plus_op "+" :: tokenizeFuel fuel rest
    else if c = '-' then Token.mk .minus_op "-" :: tokenizeFuel fuel rest
    else if c = ';' then Token.mk .semicolon ";" :: tokenizeFuel fuel rest
    else if c = '{' then Token.mk .lbrace "\x7b" :: tokenizeFuel fuel rest
    else if c = '}' then Token.mk .rbrace "\x7d" :: tokenizeFuel fuel rest
    else if c = '(' then Token.mk .lparen "(" :: tokenizeFuel fuel rest
    else if c = ')' then Token.mk .rparen ")" :: tokenizeFuel fuel rest
    else if isalphaC c then
      (if String.mk (c :: rest.takeWhile isalphaC) = "int" then
        Token.mk .int_keyword (String.mk (c :: rest.takeWhile isalphaC))
       else if String.mk (c :: rest.takeWhile isalphaC) = "if" then
        Token.mk .if_keyword (String.mk (c :: rest.takeWhile isalphaC))
       else Token.mk .identifier (String.mk (c :: rest.takeWhile isalphaC)))
        :: tokenizeFuel fuel (rest.dropWhile isalphaC)
    else if isdigitC c then
      Token.mk .number (String.mk (c :: rest.takeWhile isdigitC)) ::
        tokenizeFuel fuel (rest.dropWhile isdigitC)
    else
      Token.mk .unknown (String.mk [c]) :: tokenizeFuel fuel rest) := rfl

theorem isalphaC_not_space {c : Char} (h : isalphaC c = true) :
    isspaceC c = false := by
  simp only [isalphaC, decide_eq_true_eq] at h
  simp only [isspaceC, decide_eq_false_iff_not]
  omega

theorem isdigitC_not_space {c : Char} (h : isdigitC c = true) :
    isspaceC c = false := by
  simp only [isdigitC, decide_eq_true_eq] at h
  simp only [isspaceC, decide_eq_false_iff_not]
  omega

theorem filter_nonspace_takeWhile_alpha (rest : List Char) :
    List.filter (fun c => !isspaceC c) (rest.takeWhile isalphaC) =
      rest.takeWhile isalphaC := by
  rw [List.filter_eq_self]
  intro a ha
  have := List.mem_takeWhile_imp ha
  simp [isalphaC_not_space this]

theorem filter_nonspace_takeWhile_digit (rest : List Char) :
    List.filter (fun c => !isspaceC c) (rest.takeWhile isdigitC) =
      rest.takeWhile isdigitC := by
  rw [List.filter_eq_self]
  intro a ha
  have := List.mem_takeWhile_imp ha
  simp [isdigitC_not_space this]

/-- The reconstruction guarantee, on the fuel-indexed lexer: with enough
fuel, concatenating the token texts gives back the non-whitespace
characters of the input, in order. -/
theorem tokenizeFuel_tokensText :
    ∀ (fuel : Nat) (cs : List Char), cs.length ≤ fuel →
      tokensText (tokenizeFuel fuel cs) = cs.filter (fun c => !isspaceC c) := by
  intro fuel cs
  induction fuel, cs using tokenizeFuel.induct with
  | case1 x =>
    intro h
    have : x = [] := List.eq_nil_of_length_eq_zero (by omega)
    subst this
    rfl
  | case2 t ht =>
    intro _
    cases t <;> rfl
  | case3 fuel c rest h1 ih =>
    intro h
    simp only [List.length_cons] at h
    have ihh := ih (by omega)
    rw [Nat.succ_eq_add_one, tokenizeFuel_cons, if_pos h1, ihh, List.filter_cons, h1]
    simp
  | case4 fuel rest h1 _ ih =>
    intro h
    simp only [List.length_cons] at h
    cases rest with
    | nil => simp at h1
    | cons a tl =>
      have ha : a = '=' := by simpa using h1
      subst ha
      have ihh : tokensText (tokenizeFuel fuel tl) =
          tl.filter (fun c => !isspaceC c) := by
        simp only [List.length_cons] at h
        exact ih (by simp; omega)
      show tokensText (Token.mk .eq_op "==" :: tokenizeFuel fuel tl) = _
      rw [tokensText, ihh]
      rfl
  | case5 fuel rest h1 _ ih =>
    intro h
    simp only [List.length_cons] at h
    have ihh := ih (by omega)
    rw [Nat.succ_eq_add_one, tokenizeFuel_cons, if_neg (by decide), if_pos rfl,
      if_neg h1, tokensText, ihh]
    rfl
  | case6 fuel rest _ _ ih =>
    intro h
    simp only [List.length_cons] at h
    have ihh := ih (by omega)
    show tokensText (Token.mk .plus_op "+" :: tokenizeFuel fuel rest) = _
    rw [tokensText, ihh]
    rfl
  | case7 fuel rest _ _ _ ih =>
    intro h
    simp only [List.length_cons] at h
    have ihh := ih (by omega)
    show tokensText (Token.mk .minus_op "-" :: tokenizeFuel fuel rest) = _
    rw [tokensText, ihh]
    rfl
  | case8 fuel rest _ _ _ _ ih =>
    intro h
    simp only [List.length_cons] at h
    have ihh := ih (by omega)
    show tokensText (Token.mk .semicolon ";" :: tokenizeFuel fuel rest) = _
    rw [tokensText, ihh]
    rfl
  | case9 fuel rest _ _ _ _ _ ih =>
    intro h
    simp only [List.length_cons] at h
    have ihh := ih (by omega)
    show tokensText (Token.mk .lbrace "\x7b" :: tokenizeFuel fuel rest) = _
    rw [tokensText, ihh]
    rfl
  | case10 fuel rest _ _ _ _ _ _ ih =>
    intro h
    simp only [List.length_cons] at h
    have ihh := ih (by omega)
    show tokensText (Token.mk .rbrace "\x7d" :: tokenizeFuel fuel rest) = _
    rw [tokensText, ihh]
    rfl
  | case11 fuel rest _ _ _ _ _ _ _ ih =>
    intro h
    simp only [List.length_cons] at h
    have ihh := ih (by omega)
    show tokensText (Token.mk .lparen "(" :: tokenizeFuel fuel rest) = _
    rw [tokensText, ihh]
    rfl
  | case12 fuel rest _ _ _ _ _ _ _ _ ih =>
    intro h
    simp only [List.length_cons] at h
    have ihh := ih (by omega)
    show tokensText (Token.mk .rparen ")" :: tokenizeFuel fuel rest) = _
    rw [tokensText, ihh]
    rfl
  | case13 fuel c rest hs h1 h2 h3 h4 h5 h6 h7 h8 ha ih =>
    intro h
    simp only [List.length_cons] at h
    have hd : (List.dropWhile isalphaC rest).length ≤ fuel :=
      le_trans (List.dropWhile_suffix _).length_le (by omega)
    have ihh := ih hd
    have hspf : isspaceC c = false := isalphaC_not_space ha
    have hval : ∀ run : List Char,
        (if String.mk run = "int" then Token.mk .int_keyword (String.mk run)
         else if String.mk run = "if" then Token.mk .if_keyword (String.mk run)
         else Token.mk .identifier (String.mk run)).value.data = run := by
      intro run
      split
      · rfl
      · split <;> rfl
    rw [Nat.succ_eq_add_one, tokenizeFuel_cons, if_neg (by simp [hspf]),
      if_neg h1, if_neg h2, if_neg h3, if_neg h4, if_neg h5, if_neg h6,
      if_neg h7, if_neg h8, if_pos ha, tokensText, hval, ihh,
      List.filter_cons, hspf]
    simp only [Bool.not_false, if_true]
    conv_rhs => rw [← List.takeWhile_append_dropWhile isalphaC rest]
    rw [List.filter_append, filter_nonspace_takeWhile_alpha]
    simp
  | case14 fuel c rest hs h1 h2 h3 h4 h5 h6 h7 h8 hna hdg ih =>
    intro h
    simp only [List.length_cons] at h
    have hd : (List.dropWhile isdigitC rest).length ≤ fuel :=
      le_trans (List.dropWhile_suffix _).length_le (by omega)
    have ihh := ih hd
    have hspf : isspaceC c = false := isdigitC_not_space hdg
    rw [Nat.succ_eq_add_one, tokenizeFuel_cons, if_neg (by simp [hspf]),
      if_neg h1, if_neg h2, if_neg h3, if_neg h4, if_neg h5, if_neg h6,
      if_neg h7, if_neg h8, if_neg (by simp [hna]), if_pos hdg,
      tokensText, ihh, List.filter_cons, hspf]
    simp only [Bool.not_false, if_true]
    conv_rhs => rw [← List.takeWhile_append_dropWhile isdigitC rest]
    rw [List.filter_append, filter_nonspace_takeWhile_digit]
    simp
  | case15 fuel c rest hs h1 h2 h3 h4 h5 h6 h7 h8 hna hnd ih =>
    intro h
    simp only [List.length_cons] at h
    have ihh := ih (by omega)
    have hspf : isspaceC c = false := by
      cases hb : isspaceC c
      · rfl
      · exact absurd hb hs
    rw [Nat.succ_eq_add_one, tokenizeFuel_cons, if_neg (by simp [hspf]),
      if_neg h1, if_neg h2, if_neg h3, if_neg h4, if_neg h5, if_neg h6,
      if_neg h7, if_neg h8, if_neg (by simp [hna]), if_neg (by simp [hnd]),
      tokensText, ihh, List.filter_cons, hspf]
    simp

theorem singleton_char_nonspace {v : Char} (hv : isspaceC v = false) :
    ∀ ch ∈ [v], isspaceC ch = false := by
  intro ch hc
  rcases List.mem_singleton.1 hc with rfl
  exact hv

theorem pair_char_nonspace {a b : Char} (ha : isspaceC a = false)
    (hb : isspaceC b = false) : ∀ ch ∈ [a, b], isspaceC ch = false := by
  intro ch hc
  rcases List.mem_cons.1 hc with rfl | hc2
  · exact ha
  · rcases List.mem_singleton.1 hc2 with rfl
    exact hb

/-- No whitespace character ever appears inside a token's literal text
(so no token spans a skipped-whitespace boundary). -/
theorem tokenizeFuel_no_space :
    ∀ (fuel : Nat) (cs : List Char), cs.length ≤ fuel →
      ∀ t ∈ tokenizeFuel fuel cs, ∀ ch ∈ t.value.data, isspaceC ch = false := by
  intro fuel cs
  induction fuel, cs using tokenizeFuel.induct with
  | case1 x =>
    intro h t ht
    have : x = [] := List.eq_nil_of_length_eq_zero (by omega)
    subst this
    rw [show tokenizeFuel 0 ([] : List Char) = [] from rfl] at ht
    exact (List.not_mem_nil t ht).elim
  | case2 t ht =>
    intro _ tok htok
    cases t with
    | zero =>
      rw [show tokenizeFuel 0 ([] : List Char) = [] from rfl] at htok
      exact (List.not_mem_nil tok htok).elim
    | succ n =>
      rw [show tokenizeFuel (n + 1) ([] : List Char) = [] from rfl] at htok
      exact (List.not_mem_nil tok htok).elim
  | case3 fuel c rest h1 ih =>
    intro h t ht
    simp only [List.length_cons] at h
    rw [Nat.succ_eq_add_one, tokenizeFuel_cons, if_pos h1] at ht
    exact ih (by omega) t ht
  | case4 fuel rest h1 _ ih =>
    intro h t ht ch hch
    simp only [List.length_cons] at h
    cases rest with
    | nil => simp at h1
    | cons a tl =>
      have ha : a = '=' := by simpa using h1
      subst ha
      rw [show tokenizeFuel fuel.succ ('=' :: '=' :: tl) =
        Token.mk .eq_op "==" :: tokenizeFuel fuel tl from rfl] at ht
      rcases List.mem_cons.1 ht with rfl | ht2
      · exact @pair_char_nonspace '=' '=' rfl rfl ch hch
      · simp only [List.length_cons] at h
        exact ih (by simp; omega) t ht2 ch hch
  | case5 fuel rest h1 _ ih =>
    intro h t ht ch hch
    simp only [List.length_cons] at h
    rw [Nat.succ_eq_add_one, tokenizeFuel_cons, if_neg (by decide), if_pos rfl,
      if_neg h1] at ht
    rcases List.mem_cons.1 ht with rfl | ht2
    · exact @singleton_char_nonspace '=' rfl ch hch
    · exact ih (by omega) t ht2 ch hch
  | case6 fuel rest _ _ ih =>
    intro h t ht ch hch
    simp only [List.length_cons] at h
    rw [show tokenizeFuel fuel.succ ('+' :: rest) =
      Token.mk .plus_op "+" :: tokenizeFuel fuel rest from rfl] at ht
    rcases List.mem_cons.1 ht with rfl | ht2
    · exact @singleton_char_nonspace '+' rfl ch hch
    · exact ih (by omega) t ht2 ch hch
  | case7 fuel rest _ _ _ ih =>
    intro h t ht ch hch
    simp only [List.length_cons] at h
    rw [show tokenizeFuel fuel.succ ('-' :: rest) =
      Token.mk .minus_op "-" :: tokenizeFuel fuel rest from rfl] at ht
    rcases List.mem_cons.1 ht with rfl | ht2
    · exact @singleton_char_nonspace '-' rfl ch hch
    · exact ih (by omega) t ht2 ch hch
  | case8 fuel rest _ _ _ _ ih =>
    intro h t ht ch hch
    simp only [List.length_cons] at h
    rw [show tokenizeFuel fuel.succ (';' :: rest) =
      Token.mk .semicolon ";" :: tokenizeFuel fuel rest from rfl] at ht
    rcases List.mem_cons.1 ht with rfl | ht2
    · exact @singleton_char_nonspace ';' rfl ch hch
    · exact ih (by omega) t ht2 ch hch
  | case9 fuel rest _ _ _ _ _ ih =>
    intro h t ht ch hch
    simp only [List.length_cons] at h
    rw [show tokenizeFuel fuel.succ ('{' :: rest) =
      Token.mk .lbrace "\x7b" :: tokenizeFuel fuel rest from rfl] at ht
    rcases List.mem_cons.1 ht with rfl | ht2
    · exact @singleton_char_nonspace '{' rfl ch hch
    · exact ih (by omega) t ht2 ch hch
  | case10 fuel rest _ _ _ _ _ _ ih =>
    intro h t ht ch hch
    simp only [List.length_cons] at h
    rw [show tokenizeFuel fuel.succ ('}' :: rest) =
      Token.mk .rbrace "\x7d" :: tokenizeFuel fuel rest from rfl] at ht
    rcases List.mem_cons.1 ht with rfl | ht2
    · exact @singleton_char_nonspace '}' rfl ch hch
    · exact ih (by omega) t ht2 ch hch
  | case11 fuel rest _ _ _ _ _ _ _ ih =>
    intro h t ht ch hch
    simp only [List.length_cons] at h
    rw [show tokenizeFuel fuel.succ ('(' :: rest) =
      Token.mk .lparen "(" :: tokenizeFuel fuel rest from rfl] at ht
    rcases List.mem_cons.1 ht with rfl | ht2
    · exact @singleton_char_nonspace '(' rfl ch hch
    · exact ih (by omega) t ht2 ch hch
  | case12 fuel rest _ _ _ _ _ _ _ _ ih =>
    intro h t ht ch hch
    simp only [List.length_cons] at h
    rw [show tokenizeFuel fuel.succ (')' :: rest) =
      Token.mk .rparen ")" :: tokenizeFuel fuel rest from rfl] at ht
    rcases List.mem_cons.1 ht with rfl | ht2
    · exact @singleton_char_nonspace ')' rfl ch hch
    · exact ih (by omega) t ht2 ch hch
  | case13 fuel c rest hs h1 h2 h3 h4 h5 h6 h7 h8 ha ih =>
    intro h t ht ch hch
    simp only [List.length_cons] at h
    have hspf : isspaceC c = false := isalphaC_not_space ha
    rw [Nat.succ_eq_add_one, tokenizeFuel_cons, if_neg (by simp [hspf]),
      if_neg h1, if_neg h2, if_neg h3, if_neg h4, if_neg h5, if_neg h6,
      if_neg h7, if_neg h8, if_pos ha] at ht
    rcases List.mem_cons.1 ht with rfl | ht2
    · have hchars : ch ∈ c :: rest.takeWhile isalphaC := by
        revert hch
        split
        · exact fun hch => hch
        · split <;> exact fun hch => hch
      rcases List.mem_cons.1 hchars with rfl | hmem
      · exact hspf
      · exact isalphaC_not_space (List.mem_takeWhile_imp hmem)
    · have hd : (List.dropWhile isalphaC rest).length ≤ fuel :=
        le_trans (List.dropWhile_suffix _).length_le (by omega)
      exact ih hd t ht2 ch hch
  | case14 fuel c rest hs h1 h2 h3 h4 h5 h6 h7 h8 hna hdg ih =>
    intro h t ht ch hch
    simp only [List.length_cons] at h
    have hspf : isspaceC c = false := isdigitC_not_space hdg
    rw [Nat.succ_eq_add_one, tokenizeFuel_cons, if_neg (by simp [hspf]),
      if_neg h1, if_neg h2, if_neg h3, if_neg h4, if_neg h5, if_neg h6,
      if_neg h7, if_neg h8, if_neg (by simp [hna]), if_pos hdg] at ht
    rcases List.mem_cons.1 ht with rfl | ht2
    · rcases List.mem_cons.1 hch with rfl | hmem
      · exact hspf
      · exact isdigitC_not_space (List.mem_takeWhile_imp hmem)
    · have hd : (List.dropWhile isdigitC rest).length ≤ fuel :=
        le_trans (List.dropWhile_suffix _).length_le (by omega)
      exact ih hd t ht2 ch hch
  | case15 fuel c rest hs h1 h2 h3 h4 h5 h6 h7 h8 hna hnd ih =>
    intro h t ht ch hch
    simp only [List.length_cons] at h
    have hspf : isspaceC c = false := by
      cases hb : isspaceC c
      · rfl
      · exact absurd hb hs
    rw [Nat.succ_eq_add_one, tokenizeFuel_cons, if_neg (by simp [hspf]),
      if_neg h1, if_neg h2, if_neg h3, if_neg h4, if_neg h5, if_neg h6,
      if_neg h7, if_neg h8, if_neg (by simp [hna]), if_neg (by simp [hnd])] at ht
    rcases List.mem_cons.1 ht with rfl | ht2
    · rcases List.mem_cons.1 hch with rfl | hmem
      · exact hspf
      · cases hmem
    · exact ih (by omega) t ht2 ch hch

/-! Claim theorems. -/

/-- C1: for every Assignment node produced by the parser, `generateAssembly`
dispatches on the expression child's tag: a Number child emits exactly the
load-immediate `MVI A, <numeral>` then `STA <target>`; a `+` child emits
`MOV A, <name>` / `MVI A, <numeral>` for the first operand according to its
tag, then `ADD <name>` / `ADI <numeral>` for the second, then `STA <target>`;
in particular `x = 5;` (with `x` declared) yields exactly `MVI A, 5` then
`STA x`, and `x = y + 3;` yields exactly `MOV A, y`, `ADI 3`, `STA x`
(each line carries the generator's two-space indent). -/
theorem C1_assignment_codegen :
    (∀ (tgt num : String) (st : GenState),
      generateAssembly
        (ASTNode.mk "Assignment"
          [ASTNode.mk "Identifier" [ASTNode.mk tgt []],
           ASTNode.mk "Number" [ASTNode.mk num []]]) st =
        { st with out := st.out ++ ["  MVI A, " ++ num, "  STA " ++ tgt] }) ∧
    (∀ (tgt l r : String) (st : GenState),
      generateAssembly
        (ASTNode.mk "Assignment"
          [ASTNode.mk "Identifier" [ASTNode.mk tgt []],
           ASTNode.mk "+" [ASTNode.mk "Identifier" [ASTNode.mk l []],
                           ASTNode.mk "Identifier" [ASTNode.mk r []]]]) st =
        { st with out := st.out ++ ["  MOV A, " ++ l, "  ADD " ++ r, "  STA " ++ tgt] }) ∧
    (∀ (tgt l r : String) (st : GenState),
      generateAssembly
        (ASTNode.mk "Assignment"
          [ASTNode.mk "Identifier" [ASTNode.mk tgt []],
           ASTNode.mk "+" [ASTNode.mk "Identifier" [ASTNode.mk l []],
                           ASTNode.mk "Number" [ASTNode.mk r []]]]) st =
        { st with out := st.out ++ ["  MOV A, " ++ l, "  ADI " ++ r, "  STA " ++ tgt] }) ∧
    (∀ (tgt l r : String) (st : GenState),
      generateAssembly
        (ASTNode.mk "Assignment"
          [ASTNode.mk "Identifier" [ASTNode.mk tgt []],
           ASTNode.mk "+" [ASTNode.mk "Number" [ASTNode.mk l []],
                           ASTNode.mk "Identifier" [ASTNode.mk r []]]]) st =
        { st with out := st.out ++ ["  MVI A, " ++ l, "  ADD " ++ r, "  STA " ++ tgt] }) ∧
    (∀ (tgt l r : String) (st : GenState),
      generateAssembly
        (ASTNode.mk "Assignment"
          [ASTNode.mk "Identifier" [ASTNode.mk tgt []],
           ASTNode.mk "+" [ASTNode.mk "Number" [ASTNode.mk l []],
                           ASTNode.mk "Number" [ASTNode.mk r []]]]) st =
        { st with out := st.out ++ ["  MVI A, " ++ l, "  ADI " ++ r, "  STA " ++ tgt] }) ∧
    asmOf "int x; x = 5;".toList 100 = ["  MVI A, 5", "  STA x"] ∧
    asmOf "int x; int y; x = y + 3;".toList 100 = ["  MOV A, y", "  ADI 3", "  STA x"] := by
  refine ⟨?_, ?_, ?_, ?_, ?_, rfl, rfl⟩ <;>
    (intro tgt l r; try intro st) <;>
    simp [generateAssembly, emit, childAt, ASTNode.value, ASTNode.children]

/-- C5: for every Assignment node whose expression child is a `-` node,
`generateAssembly` emits no instruction for the operator or its operands:
the only emitted line is the final `STA <target>` store. -/
theorem C5_minus_emits_only_store :
    (∀ (tgt : String) (l r : ASTNode) (st : GenState),
      generateAssembly
        (ASTNode.mk "Assignment"
          [ASTNode.mk "Identifier" [ASTNode.mk tgt []],
           ASTNode.mk "-" [l, r]]) st =
        { st with out := st.out ++ ["  STA " ++ tgt] }) ∧
    asmOf "int x; int y; x = y - 3;".toList 100 = ["  STA x"] := by
  refine ⟨?_, rfl⟩
  intro tgt l r st
  simp [generateAssembly, emit, childAt, ASTNode.value, ASTNode.children]

/-- C9: for every Assignment node whose expression child is a bare
Identifier node (source `x = y;`), `generateAssembly` emits exactly one
line, `STA <target>`, with no load of the source identifier: the
Identifier tag matches neither the Number nor the `+` branch. -/
theorem C9_identifier_assignment_no_load :
    (∀ (tgt src : String) (st : GenState),
      generateAssembly
        (ASTNode.mk "Assignment"
          [ASTNode.mk "Identifier" [ASTNode.mk tgt []],
           ASTNode.mk "Identifier" [ASTNode.mk src []]]) st =
        { st with out := st.out ++ ["  STA " ++ tgt] }) ∧
    asmOf "int x; int y; x = y;".toList 100 = ["  STA x"] := by
  refine ⟨?_, rfl⟩
  intro tgt src st
  simp [generateAssembly, emit, childAt, ASTNode.value, ASTNode.children]

/-- C10: for every `==` condition node, `generateAssembly` emits the left
operand's leaf text in `MOV A, <text>` and the right operand's leaf text
in `CPI <text>` regardless of the operands' tags; in particular
`if (5 == x) { y = 1; }` emits `MOV A, 5` (the numeral in the variable
position) then `CPI x`. -/
theorem C10_eq_condition_tag_blind :
    (∀ (ta tb lv rv : String) (st : GenState),
      generateAssembly
        (ASTNode.mk "==" [ASTNode.mk ta [ASTNode.mk lv []],
                          ASTNode.mk tb [ASTNode.mk rv []]]) st =
        { st with out := st.out ++ ["  MOV A, " ++ lv, "  CPI " ++ rv] }) ∧
    asmOf "if (5 == x) { y = 1; }".toList 100 =
      ["  MOV A, 5", "  CPI x", "  JNZ LABEL0", "  MVI A, 1", "  STA y", "LABEL0:"] := by
  refine ⟨?_, rfl⟩
  intro ta tb lv rv st
  simp [generateAssembly, emit, childAt, ASTNode.value, ASTNode.children]

/-- C2: for every If node `generateAssembly` emits, in order, the
condition's code (`MOV A, <left leaf>` then `CPI <right leaf>` for a `==`
condition), then `JNZ LABEL<n>` with `n` the freshly allocated value of the
single monotonically increasing label counter, then the body statements'
code, then `LABEL<n>:`; the counter never decreases during generation, so
`if (x == 1) { y = 2; }` yields exactly the six lines with `LABEL0` and two
sequential if statements receive `LABEL0` then `LABEL1`, never reusing a
label. -/
theorem C2_if_codegen :
    (∀ (lv rv la lb bv : String) (bcs rest : List ASTNode) (st : GenState),
      generateAssembly
        (ASTNode.mk "If"
          (ASTNode.mk "==" [ASTNode.mk la [ASTNode.mk lv []],
                            ASTNode.mk lb [ASTNode.mk rv []]] ::
           ASTNode.mk bv bcs :: rest)) st =
        emit
          (generateAssemblyList bcs
            (emit
              (emit (emit { st with labelCounter := st.labelCounter + 1 }
                  ("  MOV A, " ++ lv))
                ("  CPI " ++ rv))
              ("  JNZ LABEL" ++ toString st.labelCounter)))
          ("LABEL" ++ toString st.labelCounter ++ ":")) ∧
    (∀ (node : ASTNode) (st : GenState),
      st.labelCounter ≤ (generateAssembly node st).labelCounter) ∧
    asmOf "if (x == 1) { y = 2; }".toList 100 =
      ["  MOV A, x", "  CPI 1", "  JNZ LABEL0", "  MVI A, 2", "  STA y", "LABEL0:"] ∧
    asmOf "if (x == 1) { y = 2; } if (x == 2) { y = 3; }".toList 100 =
      ["  MOV A, x", "  CPI 1", "  JNZ LABEL0", "  MVI A, 2", "  STA y", "LABEL0:",
       "  MOV A, x", "  CPI 2", "  JNZ LABEL1", "  MVI A, 3", "  STA y", "LABEL1:"] := by
  refine ⟨?_, generateAssembly_label_mono, rfl, rfl⟩
  intro lv rv la lb bv bcs rest st
  rfl

/-- C3 counterexample: on the truncated source `int x` (no semicolon)
the parser does not stop with the generic parse error: the third
`consume` evaluates `tokens[2]` on a 2-token sequence — an out-of-bounds
vector read (undefined behaviour in C++), modelled as the distinguished
`oobRead` outcome, refuting the claim that every token access is
in bounds and that the error branch is the only failure behaviour. -/
theorem C3_counterexample :
    parseProgram (tokenize "int x".toList) 100 = .error (.oobRead 2) ∧
    (tokenize "int x".toList).length = 2 := ⟨rfl, rfl⟩

/-- C3 (amended): for every finite token sequence, parsing either returns
a Program AST, fails with one of the two generic parse errors, or
performs an out-of-bounds token read — and such a read happens only at
the index one past the last token (the cursor never moves further);
truncated input such as `int x` does reach the out-of-bounds read.
(`outOfFuel` is an artefact of the fuel-based model, impossible with
enough fuel for the input.) -/
theorem C3_amended :
    (∀ (ts : List Token) (fuel : Nat),
      (∃ ast, parseProgram ts fuel = .ok ast) ∨
      parseProgram ts fuel = .error .unexpectedToken ∨
      parseProgram ts fuel = .error .expectedTerm ∨
      parseProgram ts fuel = .error (.oobRead ts.length) ∨
      parseProgram ts fuel = .error .outOfFuel) ∧
    parseProgram (tokenize "int x".toList) 100 =
      .error (.oobRead (tokenize "int x".toList).length) := by
  refine ⟨?_, rfl⟩
  intro ts fuel
  cases h : parseProgram ts fuel with
  | ok ast => exact Or.inl ⟨ast, rfl⟩
  | error e =>
    cases e with
    | unexpectedToken => exact Or.inr (Or.inl rfl)
    | expectedTerm => exact Or.inr (Or.inr (Or.inl rfl))
    | oobRead i =>
      have := parseProgram_oob_at_end ts fuel i h
      subst this
      exact Or.inr (Or.inr (Or.inr (Or.inl rfl)))
    | outOfFuel => exact Or.inr (Or.inr (Or.inr (Or.inr rfl)))

/-- C4: the lexer is total (it is a Lean function); concatenating the
literal texts of the returned tokens reconstructs exactly the
non-whitespace characters of the input in order; no whitespace character
occurs inside any token's text (no token spans a skipped-whitespace
boundary); and any character that is not whitespace, not an
operator/punctuation character, not a letter and not a digit yields an
`unknown` token carrying exactly that one character. -/
theorem C4_lexer_reconstruction :
    (∀ cs : List Char, tokensText (tokenize cs) = cs.filter (fun c => !isspaceC c)) ∧
    (∀ cs : List Char, ∀ t ∈ tokenize cs, ∀ ch ∈ t.value.data, isspaceC ch = false) ∧
    (∀ (c : Char) (rest : List Char),
      isspaceC c = false → c ≠ '=' → c ≠ '+' → c ≠ '-' → c ≠ ';' → c ≠ '{' →
      c ≠ '}' → c ≠ '(' → c ≠ ')' → isalphaC c = false → isdigitC c = false →
      tokenize (c :: rest) = Token.mk .unknown (String.mk [c]) :: tokenize rest) := by
  refine ⟨?_, ?_, ?_⟩
  · intro cs
    exact tokenizeFuel_tokensText cs.length cs (Nat.le_refl _)
  · intro cs
    exact tokenizeFuel_no_space cs.length cs (Nat.le_refl _)
  · intro c rest hs h1 h2 h3 h4 h5 h6 h7 h8 hna hnd
    show tokenizeFuel (c :: rest).length (c :: rest) = _
    rw [List.length_cons, tokenizeFuel_cons, if_neg (by simp [hs]),
      if_neg h1, if_neg h2, if_neg h3, if_neg h4, if_neg h5, if_neg h6,
      if_neg h7, if_neg h8, if_neg (by simp [hna]), if_neg (by simp [hnd])]
    rfl

/-- C4 witness: the unknown-character branch at the concrete character
`@`, with every hypothesis discharged there. -/
theorem C4_lexer_reconstruction_witness :
    tokenize ('@' :: "x".toList) =
      Token.mk .unknown (String.mk ['@']) :: tokenize "x".toList :=
  C4_lexer_reconstruction.2.2 '@' "x".toList rfl (by decide) (by decide)
    (by decide) (by decide) (by decide) (by decide) (by decide) (by decide)
    rfl rfl

/-- C6: whenever parsing fails with one of the two `runtime_error`s, the
whole compilation aborts: `main` prints no AST line and no assembly
instruction (its stdout is empty), prints `Error: <message>` on stderr,
and returns normally; in particular a stray `@` where a statement is
expected reports `Unexpected token`, and `x = @;` reports
`Expected term`. -/
theorem C6_parse_failure_aborts :
    (∀ (source : List Char) (fuel : Nat) (e : ParseErr),
      parseProgram (tokenize source) fuel = .error e →
      (e = .unexpectedToken ∨ e = .expectedTerm) →
      mainRun source fuel = some ([], ["Error: " ++ errMessage e])) ∧
    mainRun "@ x = 5;".toList 100 = some ([], ["Error: Unexpected token"]) ∧
    mainRun "x = @;".toList 100 = some ([], ["Error: Expected term"]) := by
  refine ⟨?_, rfl, rfl⟩
  intro source fuel e h he
  rcases he with rfl | rfl <;> simp [mainRun, h]

/-- C6 witness: the general abort property applied to the concrete
source `@ x = 5;`. -/
theorem C6_parse_failure_aborts_witness :
    mainRun "@ x = 5;".toList 100 =
      some ([], ["Error: " ++ errMessage .unexpectedToken]) :=
  C6_parse_failure_aborts.1 "@ x = 5;".toList 100 .unexpectedToken rfl (Or.inl rfl)

/-- C7: at every in-bounds token position, `parseTerm` succeeds on a
number token (returning a Number node carrying the token text) and on an
identifier token (returning an Identifier node carrying the token text),
and fails with the `Expected term` error on a token of any other kind. -/
theorem C7_parseTerm_classification :
    ∀ (ts : List Token) (pos : Nat) (h : pos < ts.length),
      ((ts.get ⟨pos, h⟩).type = .number →
        parseTerm ts pos =
          .ok (ASTNode.mk "Number" [ASTNode.mk (ts.get ⟨pos, h⟩).value []], pos + 1)) ∧
      ((ts.get ⟨pos, h⟩).type = .identifier →
        parseTerm ts pos =
          .ok (ASTNode.mk "Identifier" [ASTNode.mk (ts.get ⟨pos, h⟩).value []], pos + 1)) ∧
      ((ts.get ⟨pos, h⟩).type ≠ .number → (ts.get ⟨pos, h⟩).type ≠ .identifier →
        parseTerm ts pos = .error .expectedTerm) := by
  intro ts pos h
  refine ⟨?_, ?_, ?_⟩
  · intro hty
    rw [List.get_eq_getElem] at hty
    simp [parseTerm, parseIdentifier, consume, peekTok, dif_pos h, hty]
  · intro hty
    rw [List.get_eq_getElem] at hty
    simp [parseTerm, parseIdentifier, consume, peekTok, dif_pos h, hty]
  · intro hn hi
    rw [List.get_eq_getElem] at hn hi
    simp [parseTerm, peekTok, dif_pos h, hn, hi]

/-- C7 witness: the three branches at concrete one-token sequences. -/
theorem C7_parseTerm_classification_witness :
    parseTerm [Token.mk .number "7"] 0 =
      .ok (ASTNode.mk "Number" [ASTNode.mk "7" []], 1) ∧
    parseTerm [Token.mk .identifier "y"] 0 =
      .ok (ASTNode.mk "Identifier" [ASTNode.mk "y" []], 1) ∧
    parseTerm [Token.mk .semicolon ";"] 0 = .error .expectedTerm :=
  ⟨(C7_parseTerm_classification [Token.mk .number "7"] 0 (by decide)).1 rfl,
   (C7_parseTerm_classification [Token.mk .identifier "y"] 0 (by decide)).2.1 rfl,
   (C7_parseTerm_classification [Token.mk .semicolon ";"] 0 (by decide)).2.2
     (by decide) (by decide)⟩

/-- C8: the symbol table grows monotonically during one
`generateAssembly` traversal: a Declaration node inserts its variable's
name mapped to `0` and emits no instruction line; no branch removes a key
(any present key stays present); starting from the empty table every
reachable entry has value `0`; after generation every declared name is
present with value `0`; and the duplicate declaration `int x; int x;` is
silently accepted, leaves `x ↦ 0`, and emits no instruction. -/
theorem C8_symbol_table :
    (∀ (cs : List ASTNode) (st : GenState),
      generateAssembly (ASTNode.mk "Declaration" cs) st =
        { st with symbolTable :=
            ((childAt (cs.getD 0 (ASTNode.mk "" [])) 0).value, 0) :: st.symbolTable }) ∧
    (∀ (node : ASTNode) (st : GenState) (k : String),
      (List.lookup k st.symbolTable).isSome →
      (List.lookup k (generateAssembly node st).symbolTable).isSome) ∧
    (∀ (node : ASTNode) (k : String) (v : Int),
      List.lookup k (generateAssembly node
        { out := [], symbolTable := [], labelCounter := 0 }).symbolTable = some v →
      v = 0) ∧
    (∀ (node : ASTNode) (st : GenState) (k : String),
      k ∈ declaredVars node →
      List.lookup k (generateAssembly node st).symbolTable = some 0) ∧
    (∃ root, parseProgram (tokenize "int x; int x;".toList) 100 = .ok root ∧
      List.lookup "x" (generateAssembly root
        { out := [], symbolTable := [], labelCounter := 0 }).symbolTable = some 0 ∧
      (generateAssembly root
        { out := [], symbolTable := [], labelCounter := 0 }).out = []) := by
  refine ⟨fun cs st => rfl, generateAssembly_lookup_mono, ?_,
    fun node st k hk => declaredVars_lookup.1 node st k hk, ⟨_, rfl, rfl, rfl⟩⟩
  intro node k v h
  exact generateAssembly_all_zero node _ (by intro k' v' h'; simp at h') k v h

/-- C8 witness: a present key survives a Declaration (monotonicity), the
empty-start all-zero fact, and a declared name ending at `0`, each at a
concrete instance. -/
theorem C8_symbol_table_witness :
    (List.lookup "y" (generateAssembly
      (ASTNode.mk "Declaration" [ASTNode.mk "Identifier" [ASTNode.mk "x" []]])
      { out := [], symbolTable := [("y", 0)], labelCounter := 0 }).symbolTable).isSome ∧
    (0 : Int) = 0 ∧
    List.lookup "x" (generateAssembly
      (ASTNode.mk "Declaration" [ASTNode.mk "Identifier" [ASTNode.mk "x" []]])
      { out := [], symbolTable := [], labelCounter := 0 }).symbolTable = some 0 :=
  ⟨C8_symbol_table.2.1
      (ASTNode.mk "Declaration" [ASTNode.mk "Identifier" [ASTNode.mk "x" []]])
      { out := [], symbolTable := [("y", 0)], labelCounter := 0 } "y" rfl,
   C8_symbol_table.2.2.1
      (ASTNode.mk "Declaration" [ASTNode.mk "Identifier" [ASTNode.mk "x" []]])
      "x" 0 rfl,
   C8_symbol_table.2.2.2.1
      (ASTNode.mk "Declaration" [ASTNode.mk "Identifier" [ASTNode.mk "x" []]])
      { out := [], symbolTable := [], labelCounter := 0 } "x" (by decide)⟩

end SimpleLang
